import Mathlib

/-!
Formal model of the drug-table assembly step (`make_drug_table` in
`scripts/read_data.py`) of the drug-spending pipeline, together with the
name normalisation performed at load time (`download_partd` lowercases and
the splitting inside `make_drug_table` tokenises).

Tables (pandas DataFrames in the source) are modelled as lists of rows;
pandas/numpy primitives used by the source are given faithful list-level
counterparts:

  * Python `s.split(sep)` for a one-character separator keeps empty fields
    and returns `[""]` on `""`; modelled by `splitOnChar` / `pySplit`.
  * `Series.unique()` keeps the first occurrence of each value, in order of
    appearance; modelled by `firstSeenDedup`.
  * `np.unique` returns the distinct values in ascending sorted order;
    modelled by `npUnique`.
  * `"|".join(parts)` is modelled by `joinPipe`.
  * `np.float` applied to the serialized identifier strings (decimal
    integers or the sentinel `"0.0"`) is modelled by `parsePyFloat`;
    identifiers are nonnegative integers, represented as `Nat`.
-/

namespace DrugSpending

/-- A row of the drug-names table (`drugnames.feather`): brand and generic
name, both lowercased and whitespace-trimmed at load time. -/
structure DrugNameRow where
  drugname_brand : String
  drugname_generic : String
deriving DecidableEq, Repr

/-- A row of the RxNorm registry (`rxnorm.feather`): the RXCUI identifier
and the commonly used name `STR`, lowercased at load time. -/
structure RxnormRow where
  RXCUI : Nat
  STR : String
deriving DecidableEq, Repr

/-- A row of the prescription-drug-profile table (`puf.feather`), reduced to
the three columns the builder uses. -/
structure PufRow where
  RXNORM_RXCUI : Nat
  DRUG_MAJOR_CLASS : String
  DRUG_CLASS : String
deriving DecidableEq, Repr

/-- A row of a class-description table (`drug_major_class.feather` has
columns `drug_major_class`/`drug_major_class_desc`, `drug_class.feather`
has `drug_class`/`drug_class_desc`); both are a code plus a description. -/
structure ClassRow where
  class_code : String
  class_desc : String
deriving DecidableEq, Repr

/-- A row of the output table `drugnames_withclasses.feather`.  The columns
`dmc_string`/`dc_string` are created empty by the source and never written
again (the per-row loop writes `dmc_name`/`dc_name` instead), so they stay
`""`. -/
structure ResolvedRow where
  drugname_brand : String
  drugname_generic : String
  RXCUI : String
  drug_major_class : String
  dmc_string : String
  drug_class : String
  dc_string : String
  dmc_name : String
  dc_name : String
deriving DecidableEq, Repr

/-- Python `str.split(sep)` for a one-character separator, over the list of
characters: splits on every occurrence of `sep`, keeping empty fields, and
yields `[[]]` on the empty list (Python's `"".split(sep) == [""]`). -/
def splitOnChar (sep : Char) : List Char → List (List Char)
  | [] => [[]]
  | c :: cs =>
    match splitOnChar sep cs with
    | [] => [[]]
    | r :: rs => if c = sep then [] :: r :: rs else (c :: r) :: rs

/-- Python `s.split(sep)` for a one-character separator, on strings. -/
def pySplit (sep : Char) (s : String) : List String :=
  (splitOnChar sep s.data).map String.mk

/-- ASCII lowercasing of one character, as `str.lower` acts on the
drug-name data (all names in the dataset are ASCII). -/
def asciiLower (c : Char) : Char :=
  if 65 ≤ c.toNat ∧ c.toNat ≤ 90 then Char.ofNat (c.toNat + 32) else c

/-- `Series.str.lower()` applied to one cell: lowercase every character. -/
def pyLower (s : String) : String := String.mk (s.data.map asciiLower)

/-- The Name Normalizer.  `download_partd` lowercases the stored names;
`make_drug_table` then splits each name on `/` (`d.split("/")`) and keeps,
for each piece, only the text before the first space (`di.split(" ")[0]`).
Python's `split` never returns an empty list, so `headD ""` is exact. -/
def normalizeName (d : String) : List String :=
  (pySplit '/' (pyLower d)).map (fun di => (pySplit ' ' di).headD "")

/-- The combined candidate-token sequence for one row: the source iterates
`for c in ["drugname_generic", "drugname_brand"]`, generic first. -/
def rowTokens (row : DrugNameRow) : List String :=
  normalizeName row.drugname_generic ++ normalizeName row.drugname_brand

/-- Helper for `firstSeenDedup`: keep each element not seen before, in
order, recording what has been kept in `seen`. -/
def firstSeenDedupAux {α : Type} [DecidableEq α] (seen : List α) :
    List α → List α
  | [] => []
  | x :: xs =>
    if x ∈ seen then firstSeenDedupAux seen xs
    else x :: firstSeenDedupAux (x :: seen) xs

/-- pandas `Series.unique()`: distinct values in order of first
appearance. -/
def firstSeenDedup {α : Type} [DecidableEq α] (l : List α) : List α :=
  firstSeenDedupAux [] l

/-- One token's registry matches:
`v = rxnorm[rxnorm["STR"] == tok]; v["RXCUI"].unique()`. -/
def tokenMatches (rxnorm : List RxnormRow) (tok : String) : List Nat :=
  firstSeenDedup ((rxnorm.filter (fun r => r.STR = tok)).map (fun r => r.RXCUI))

/-- The per-row identifier accumulation: the source loops over the tokens
and does `rxcui.extend(v["RXCUI"].unique())` for each (extending by the
empty list when a token has no match), i.e. concatenation of the per-token
match lists with no deduplication across tokens. -/
def resolveTokens (rxnorm : List RxnormRow) (toks : List String) : List Nat :=
  toks.flatMap (tokenMatches rxnorm)

/-- Python `str(n)` / `np.array(_, dtype=str)` on a nonnegative integer:
its decimal representation. -/
def natToStr (n : Nat) : String := Nat.repr n

/-- `"|".join(parts)`. -/
def joinPipe : List String → String
  | [] => ""
  | [s] => s
  | s :: t :: rest => s ++ "|" ++ joinPipe (t :: rest)

/-- Serialization of the per-row identifier list into the `RXCUI` column:
`"|".join(...)` when there are at least two, `str(rxcui[0])` for one, and
the sentinel `'0.0'` when there is none. -/
def serializeIds : List Nat → String
  | [] => "0.0"
  | [x] => natToStr x
  | x :: y :: rest => joinPipe ((x :: y :: rest).map natToStr)

/-- The value the first pass writes into the row's `RXCUI` column. -/
def rxcuiCell (rxnorm : List RxnormRow) (row : DrugNameRow) : String :=
  serializeIds (resolveTokens rxnorm (rowTokens row))

/-- `np.float` applied to a serialized identifier string: the sentinel
`"0.0"` parses to the number `0`; a decimal-digit string parses to its
value.  (Identifiers are nonnegative integers, so `Nat` represents the
float values that can arise.) -/
def parsePyFloat (s : String) : Nat :=
  if s = "0.0" then 0
  else s.data.foldl (fun a c => a * 10 + (c.toNat - 48)) 0

/-- The identifier list the second pass recovers from a serialized `RXCUI`
cell: `drugnames.loc[idx, "RXCUI"].split("|")`, each piece fed through
`np.float`. -/
def cellIds (cell : String) : List Nat :=
  (pySplit '|' cell).map parsePyFloat

/-- One identifier's major-class contributions:
`r = puf[puf["RXNORM_RXCUI"] == np.float(rxcui)]` followed by
`r["DRUG_MAJOR_CLASS"].unique()`. -/
def pufMajors (puf : List PufRow) (i : Nat) : List String :=
  firstSeenDedup
    ((puf.filter (fun p => p.RXNORM_RXCUI = i)).map (fun p => p.DRUG_MAJOR_CLASS))

/-- One identifier's minor-class contributions (`DRUG_CLASS` column). -/
def pufMinors (puf : List PufRow) (i : Nat) : List String :=
  firstSeenDedup
    ((puf.filter (fun p => p.RXNORM_RXCUI = i)).map (fun p => p.DRUG_CLASS))

/-- Lexicographic comparison of character lists by code point, the order
numpy uses on string arrays. -/
def charListLe : List Char → List Char → Bool
  | [], _ => true
  | _ :: _, [] => false
  | a :: as, b :: bs =>
    if a.toNat = b.toNat then charListLe as bs else decide (a.toNat < b.toNat)

/-- Code-point lexicographic order on strings (numpy's string order). -/
def strLe (a b : String) : Bool := charListLe a.data b.data

/-- `np.unique`: distinct values in ascending lexicographic order. -/
def npUnique (l : List String) : List String :=
  List.insertionSort (fun a b => strLe a b = true) (firstSeenDedup l)

/-- The deduplicated major-class codes of a row:
`dmc.extend(...)` per identifier, then `dmc = np.unique(dmc)`. -/
def majorCodes (puf : List PufRow) (ids : List Nat) : List String :=
  npUnique (ids.flatMap (pufMajors puf))

/-- The deduplicated minor-class codes of a row (`dc = np.unique(dc)`). -/
def minorCodes (puf : List PufRow) (ids : List Nat) : List String :=
  npUnique (ids.flatMap (pufMinors puf))

/-- The description lookup:
`np.hstack([table.loc[table[code] == d, desc].values for d in codes])`
collects, for each code in order, every matching description row. -/
def classDescs (table : List ClassRow) (codes : List String) : List String :=
  codes.flatMap (fun d =>
    (table.filter (fun c => c.class_code = d)).map (fun c => c.class_desc))

/-- The class-code cell of a row: `"|".join` of the codes when there is at
least one (`if len(dmc) != 0`), else the sentinel `"0"`. -/
def codeCell (codes : List String) : String :=
  if codes = [] then "0" else joinPipe codes

/-- The class-description cell of a row: in the same branch as `codeCell`,
`"|".join` of every description matching the codes, in code order, else
the sentinel `"0"`. -/
def descCell (table : List ClassRow) (codes : List String) : String :=
  if codes = [] then "0" else joinPipe (classDescs table codes)

/-- The whole per-row resolution of `make_drug_table`: first pass writes
the serialized identifier list into `RXCUI`, second pass splits that cell
back, aggregates classes and writes the four class cells (`"0"` when the
corresponding code set is empty). -/
def resolveRow (rxnorm : List RxnormRow) (puf : List PufRow)
    (drug_major_class drug_class : List ClassRow) (row : DrugNameRow) :
    ResolvedRow :=
  let cell := rxcuiCell rxnorm row
  let parsed := cellIds cell
  let dmc := majorCodes puf parsed
  let dc := minorCodes puf parsed
  { drugname_brand := row.drugname_brand
    drugname_generic := row.drugname_generic
    RXCUI := cell
    drug_major_class := codeCell dmc
    dmc_string := ""
    drug_class := codeCell dc
    dc_string := ""
    dmc_name := descCell drug_major_class dmc
    dc_name := descCell drug_class dc }

/-- `make_drug_table`, given the four loaded reference tables and the
drug-names table: both per-row loops fused into one map over the rows (the
second loop reads only the `RXCUI` column the first loop wrote for the same
row, so fusing is exact). -/
def make_drug_table (drugnames : List DrugNameRow) (puf : List PufRow)
    (rxnorm : List RxnormRow) (drug_major_class drug_class : List ClassRow) :
    List ResolvedRow :=
  drugnames.map (resolveRow rxnorm puf drug_major_class drug_class)

/-- `make_drug_table` with the leading existence asserts: a table whose
file is absent is `none`, and the function stops at the first failing
assert with that assert's message, in source order, before touching any
row.  A present-but-empty table is `some []` and passes the asserts. -/
def make_drug_table_checked (drugnames : Option (List DrugNameRow))
    (puf : Option (List PufRow)) (rxnorm : Option (List RxnormRow))
    (drug_major_class drug_class : Option (List ClassRow)) :
    Except String (List ResolvedRow) :=
  match drugnames with
  | none => .error "Drugnames file does not exist!"
  | some dn =>
    match puf with
    | none => .error "Prescription drug profile data file does not exist!"
    | some pf =>
      match rxnorm with
      | none => .error "RxNorm data file does not exist!"
      | some rx =>
        match drug_major_class with
        | none => .error "Drug major class file does not exist."
        | some maj =>
          match drug_class with
          | none => .error "Drug class file does not exist."
          | some minc => .ok (make_drug_table dn pf rx maj minc)

/-! ### Supporting lemmas -/

/-- What `firstSeenDedupAux` keeps is a sublist of its input. -/
theorem firstSeenDedupAux_sublist {α : Type} [DecidableEq α] :
    ∀ (l seen : List α), (firstSeenDedupAux seen l).Sublist l := by
  intro l
  induction l with
  | nil => intro seen; simp [firstSeenDedupAux]
  | cons x xs ih =>
    intro seen
    simp only [firstSeenDedupAux]
    by_cases hx : x ∈ seen
    · simp only [hx, if_pos]
      exact (ih seen).trans (List.sublist_cons_self x xs)
    · simp only [hx, if_neg, not_false_iff]
      exact List.Sublist.cons₂ x (ih (x :: seen))

/-- Elements produced by `firstSeenDedupAux` were not already seen. -/
theorem firstSeenDedupAux_not_seen {α : Type} [DecidableEq α] :
    ∀ (l seen : List α) (x : α), x ∈ firstSeenDedupAux seen l → x ∉ seen := by
  intro l
  induction l with
  | nil => intro seen x hx; simp [firstSeenDedupAux] at hx
  | cons y ys ih =>
    intro seen x hx
    simp only [firstSeenDedupAux] at hx
    by_cases hy : y ∈ seen
    · rw [if_pos hy] at hx
      exact ih seen x hx
    · rw [if_neg hy] at hx
      rcases List.mem_cons.mp hx with h | h
      · subst h; exact hy
      · intro hs
        exact ih (y :: seen) x h (List.mem_cons_of_mem y hs)

/-- `firstSeenDedupAux` produces no duplicates. -/
theorem firstSeenDedupAux_nodup {α : Type} [DecidableEq α] :
    ∀ (l seen : List α), (firstSeenDedupAux seen l).Nodup := by
  intro l
  induction l with
  | nil => intro seen; simp [firstSeenDedupAux]
  | cons x xs ih =>
    intro seen
    simp only [firstSeenDedupAux]
    by_cases hx : x ∈ seen
    · rw [if_pos hx]; exact ih seen
    · rw [if_neg hx]
      refine List.nodup_cons.mpr ⟨?_, ih (x :: seen)⟩
      intro hmem
      exact firstSeenDedupAux_not_seen xs (x :: seen) x hmem (List.mem_cons_self x seen)

/-- `firstSeenDedup` keeps its elements in their original order. -/
theorem firstSeenDedup_sublist {α : Type} [DecidableEq α] (l : List α) :
    (firstSeenDedup l).Sublist l :=
  firstSeenDedupAux_sublist l []

/-- `firstSeenDedup` produces no duplicates. -/
theorem firstSeenDedup_nodup {α : Type} [DecidableEq α] (l : List α) :
    (firstSeenDedup l).Nodup :=
  firstSeenDedupAux_nodup l []

/-- Membership after `firstSeenDedup` implies membership before. -/
theorem mem_of_mem_firstSeenDedup {α : Type} [DecidableEq α] {x : α}
    {l : List α} (h : x ∈ firstSeenDedup l) : x ∈ l :=
  (firstSeenDedup_sublist l).mem h

/-- `splitOnChar` never yields the empty list of fields. -/
theorem splitOnChar_ne_nil (sep : Char) : ∀ l : List Char, splitOnChar sep l ≠ [] := by
  intro l
  induction l with
  | nil => simp [splitOnChar]
  | cons c cs ih =>
    simp only [splitOnChar]
    cases h : splitOnChar sep cs with
    | nil => exact absurd h ih
    | cons r rs =>
      by_cases hc : c = sep
      · simp [hc]
      · simp [hc]

/-- A leading separator contributes an empty first field. -/
theorem splitOnChar_cons_sep (sep : Char) (l : List Char) :
    splitOnChar sep (sep :: l) = [] :: splitOnChar sep l := by
  simp only [splitOnChar]
  cases h : splitOnChar sep l with
  | nil => exact absurd h (splitOnChar_ne_nil sep l)
  | cons r rs => simp

/-- A leading non-separator character joins the first field. -/
theorem splitOnChar_cons_ne {sep c : Char} (hc : c ≠ sep) (l : List Char) :
    ∀ r rs, splitOnChar sep l = r :: rs →
      splitOnChar sep (c :: l) = (c :: r) :: rs := by
  intro r rs h
  simp only [splitOnChar, h]
  simp [hc]

/-- A list without the separator is a single field. -/
theorem splitOnChar_of_not_mem {sep : Char} :
    ∀ {l : List Char}, sep ∉ l → splitOnChar sep l = [l] := by
  intro l
  induction l with
  | nil => intro _; rfl
  | cons c cs ih =>
    intro h
    have hc : c ≠ sep := fun he => h (he ▸ List.mem_cons_self c cs)
    have hcs : sep ∉ cs := fun hm => h (List.mem_cons_of_mem c hm)
    exact splitOnChar_cons_ne hc cs cs [] (ih hcs)

/-- Splitting at the first separator occurrence peels off the first
field. -/
theorem splitOnChar_append {sep : Char} :
    ∀ {l₁ : List Char}, sep ∉ l₁ → ∀ l₂ : List Char,
      splitOnChar sep (l₁ ++ sep :: l₂) = l₁ :: splitOnChar sep l₂ := by
  intro l₁
  induction l₁ with
  | nil =>
    intro _ l₂
    rw [List.nil_append]
    exact splitOnChar_cons_sep sep l₂
  | cons c cs ih =>
    intro h l₂
    have hc : c ≠ sep := fun he => h (he ▸ List.mem_cons_self c cs)
    have hcs : sep ∉ cs := fun hm => h (List.mem_cons_of_mem c hm)
    rw [List.cons_append]
    exact splitOnChar_cons_ne hc _ cs (splitOnChar sep l₂) (ih hcs l₂)

/-- Splitting a list consisting solely of separators yields only empty
fields. -/
theorem splitOnChar_all_sep {sep : Char} :
    ∀ {l : List Char}, (∀ c ∈ l, c = sep) →
      ∀ f ∈ splitOnChar sep l, f = [] := by
  intro l
  induction l with
  | nil =>
    intro _ f hf
    simp only [splitOnChar, List.mem_singleton] at hf
    exact hf
  | cons c cs ih =>
    intro h f hf
    have hc : c = sep := h c (List.mem_cons_self c cs)
    have hcs : ∀ x ∈ cs, x = sep := fun x hx => h x (List.mem_cons_of_mem c hx)
    rw [hc, splitOnChar_cons_sep] at hf
    rcases List.mem_cons.mp hf with h0 | h0
    · exact h0
    · exact ih hcs f h0

/-- `charListLe` is total. -/
theorem charListLe_total : ∀ as bs : List Char,
    charListLe as bs = true ∨ charListLe bs as = true := by
  intro as
  induction as with
  | nil => intro bs; left; rfl
  | cons a as ih =>
    intro bs
    cases bs with
    | nil => right; rfl
    | cons b bs =>
      simp only [charListLe]
      by_cases hab : a.toNat = b.toNat
      · rw [if_pos hab, if_pos hab.symm]
        exact ih bs
      · have hba : b.toNat ≠ a.toNat := fun he => hab he.symm
        rw [if_neg hab, if_neg hba]
        simp only [decide_eq_true_eq]
        omega

/-- `charListLe` is transitive. -/
theorem charListLe_trans : ∀ as bs cs : List Char,
    charListLe as bs = true → charListLe bs cs = true →
      charListLe as cs = true := by
  intro as
  induction as with
  | nil => intro bs cs _ _; rfl
  | cons a as ih =>
    intro bs cs h1 h2
    cases bs with
    | nil => simp [charListLe] at h1
    | cons b bs =>
      cases cs with
      | nil => simp [charListLe] at h2
      | cons c cs =>
        simp only [charListLe] at h1 h2 ⊢
        by_cases hab : a.toNat = b.toNat
        · rw [if_pos hab] at h1
          by_cases hbc : b.toNat = c.toNat
          · rw [if_pos hbc] at h2
            have hac : a.toNat = c.toNat := hab.trans hbc
            rw [if_pos hac]
            exact ih bs cs h1 h2
          · rw [if_neg hbc] at h2
            have hbc' : b.toNat < c.toNat := by
              simpa using h2
            have hac : a.toNat ≠ c.toNat := by omega
            rw [if_neg hac]
            simp only [decide_eq_true_eq]
            omega
        · rw [if_neg hab] at h1
          have hab' : a.toNat < b.toNat := by simpa using h1
          by_cases hbc : b.toNat = c.toNat
          · rw [if_pos hbc] at h2
            have hac : a.toNat ≠ c.toNat := by omega
            rw [if_neg hac]
            simp only [decide_eq_true_eq]
            omega
          · rw [if_neg hbc] at h2
            have hbc' : b.toNat < c.toNat := by simpa using h2
            have hac : a.toNat ≠ c.toNat := by omega
            rw [if_neg hac]
            simp only [decide_eq_true_eq]
            omega

instance strLeIsTotal : IsTotal String (fun a b => strLe a b = true) :=
  ⟨fun a b => charListLe_total a.data b.data⟩

instance strLeIsTrans : IsTrans String (fun a b => strLe a b = true) :=
  ⟨fun a b c => charListLe_trans a.data b.data c.data⟩

/-- `npUnique` output is sorted in numpy's ascending string order. -/
theorem npUnique_sorted (l : List String) :
    List.Sorted (fun a b => strLe a b = true) (npUnique l) :=
  List.sorted_insertionSort _ (firstSeenDedup l)

/-- Membership after `npUnique` implies membership before. -/
theorem mem_of_mem_npUnique {x : String} {l : List String}
    (h : x ∈ npUnique l) : x ∈ l :=
  mem_of_mem_firstSeenDedup ((List.perm_insertionSort _ _).mem_iff.mp h)

/-- A major-class code of a row comes from some profile row. -/
theorem mem_majorCodes {x : String} {puf : List PufRow} {ids : List Nat}
    (h : x ∈ majorCodes puf ids) : ∃ p ∈ puf, p.DRUG_MAJOR_CLASS = x := by
  have h1 := mem_of_mem_npUnique h
  rcases List.mem_flatMap.mp h1 with ⟨i, _, hx⟩
  have h2 := mem_of_mem_firstSeenDedup hx
  rcases List.mem_map.mp h2 with ⟨p, hp, hpx⟩
  exact ⟨p, (List.mem_filter.mp hp).1, hpx⟩

/-- A minor-class code of a row comes from some profile row. -/
theorem mem_minorCodes {x : String} {puf : List PufRow} {ids : List Nat}
    (h : x ∈ minorCodes puf ids) : ∃ p ∈ puf, p.DRUG_CLASS = x := by
  have h1 := mem_of_mem_npUnique h
  rcases List.mem_flatMap.mp h1 with ⟨i, _, hx⟩
  have h2 := mem_of_mem_firstSeenDedup hx
  rcases List.mem_map.mp h2 with ⟨p, hp, hpx⟩
  exact ⟨p, (List.mem_filter.mp hp).1, hpx⟩

/-- Shape of the resolved row's identifier cell. -/
theorem resolveRow_RXCUI (rx : List RxnormRow) (pf : List PufRow)
    (maj minc : List ClassRow) (row : DrugNameRow) :
    (resolveRow rx pf maj minc row).RXCUI = rxcuiCell rx row := by
  simp only [resolveRow]

/-- Shape of the resolved row's major-class code cell. -/
theorem resolveRow_drug_major_class (rx : List RxnormRow) (pf : List PufRow)
    (maj minc : List ClassRow) (row : DrugNameRow) :
    (resolveRow rx pf maj minc row).drug_major_class
      = codeCell (majorCodes pf (cellIds (rxcuiCell rx row))) := by
  simp only [resolveRow]

/-- Shape of the resolved row's major-class description cell. -/
theorem resolveRow_dmc_name (rx : List RxnormRow) (pf : List PufRow)
    (maj minc : List ClassRow) (row : DrugNameRow) :
    (resolveRow rx pf maj minc row).dmc_name
      = descCell maj (majorCodes pf (cellIds (rxcuiCell rx row))) := by
  simp only [resolveRow]

/-- Shape of the resolved row's minor-class code cell. -/
theorem resolveRow_drug_class (rx : List RxnormRow) (pf : List PufRow)
    (maj minc : List ClassRow) (row : DrugNameRow) :
    (resolveRow rx pf maj minc row).drug_class
      = codeCell (minorCodes pf (cellIds (rxcuiCell rx row))) := by
  simp only [resolveRow]

/-- Shape of the resolved row's minor-class description cell. -/
theorem resolveRow_dc_name (rx : List RxnormRow) (pf : List PufRow)
    (maj minc : List ClassRow) (row : DrugNameRow) :
    (resolveRow rx pf maj minc row).dc_name
      = descCell minc (minorCodes pf (cellIds (rxcuiCell rx row))) := by
  simp only [resolveRow]

/-- `Nat.toDigitsCore` never shortens its accumulator. -/
theorem length_le_toDigitsCore (b : Nat) :
    ∀ (f n : Nat) (acc : List Char),
      acc.length ≤ (Nat.toDigitsCore b f n acc).length := by
  intro f
  induction f with
  | zero => intro n acc; simp [Nat.toDigitsCore]
  | succ f ih =>
    intro n acc
    simp only [Nat.toDigitsCore]
    by_cases h : n / b = 0
    · simp [h]
    · rw [if_neg h]
      calc acc.length ≤ (Nat.digitChar (n % b) :: acc).length := by simp
        _ ≤ _ := ih (n / b) (Nat.digitChar (n % b) :: acc)

/-- Python `str` of a nonnegative integer is never the empty string. -/
theorem natToStr_ne_empty (n : Nat) : natToStr n ≠ "" := by
  show Nat.repr n ≠ ""
  simp only [Nat.repr, Nat.toDigits, List.asString]
  intro h
  have hd : Nat.toDigitsCore 10 (n + 1) n [] = [] := congrArg String.data h
  have hlen : (Nat.toDigitsCore 10 (n + 1) n []).length = 0 := by
    rw [hd]; rfl
  simp only [Nat.toDigitsCore] at hlen
  by_cases h10 : n / 10 = 0
  · rw [if_pos h10] at hlen
    simp at hlen
  · rw [if_neg h10] at hlen
    have h1 : (1 : Nat) ≤
        (Nat.toDigitsCore 10 n (n / 10) [Nat.digitChar (n % 10)]).length := by
      simpa using length_le_toDigitsCore 10 n (n / 10) [Nat.digitChar (n % 10)]
    omega

/-- A nonempty string stays nonempty after appending. -/
theorem append_ne_empty_left {s t : String} (hs : s ≠ "") : s ++ t ≠ "" := by
  intro h
  have hlen : (s ++ t).length = 0 := by rw [h]; rfl
  rw [String.length_append] at hlen
  have : s.length = 0 := by omega
  apply hs
  cases s with
  | mk data =>
    cases data with
    | nil => rfl
    | cons c cs => simp [String.length, List.length] at this

/-- `"|".join` of a nonempty list of nonempty strings is nonempty. -/
theorem joinPipe_ne_empty :
    ∀ {l : List String}, l ≠ [] → (∀ s ∈ l, s ≠ "") → joinPipe l ≠ "" := by
  intro l
  match l with
  | [] => intro h _; exact absurd rfl h
  | [s] =>
    intro _ hne
    exact hne s (List.mem_singleton.mpr rfl)
  | s :: t :: rest =>
    intro _ hne
    show s ++ "|" ++ joinPipe (t :: rest) ≠ ""
    exact append_ne_empty_left
      (append_ne_empty_left (hne s (List.mem_cons_self s _)))

/-- The serialized identifier column is never the empty string. -/
theorem serializeIds_ne_empty : ∀ ids : List Nat, serializeIds ids ≠ "" := by
  intro ids
  match ids with
  | [] =>
    show "0.0" ≠ ""
    decide
  | [x] => exact natToStr_ne_empty x
  | x :: y :: rest =>
    show joinPipe ((x :: y :: rest).map natToStr) ≠ ""
    refine joinPipe_ne_empty (by simp) ?_
    intro s hs
    rcases List.mem_map.mp hs with ⟨n, _, hn⟩
    exact hn ▸ natToStr_ne_empty n

/-- Following the spec's words only (§4.1: "split on whitespace and take
only the first token"): the first whitespace-delimited word of a segment,
i.e. drop leading whitespace of any kind, then take the maximal run of
non-whitespace characters.  Used to compare the spec's reading with the
source's split on the space character alone. -/
def specFirstWhitespaceWord (s : String) : String :=
  String.mk ((s.data.dropWhile Char.isWhitespace).takeWhile
    (fun c => ¬ c.isWhitespace))

/-! ### Claims -/

/-- C1 counterexample: the Identifier Resolver does not deduplicate across
tokens.  With a registry mapping `"a"` to identifier 100, resolving the
token list `["a", "a"]` yields `[100, 100]` — identifier 100 appears twice
and the serialized cell is `"100|100"` — whereas resolving `["a"]` yields
`[100]`. -/
theorem resolver_cross_token_dedup_cex :
    resolveTokens [⟨100, "a"⟩] ["a", "a"] = [100, 100] ∧
    (resolveTokens [⟨100, "a"⟩] ["a", "a"]).count 100 = 2 ∧
    resolveTokens [⟨100, "a"⟩] ["a"] = [100] ∧
    serializeIds (resolveTokens [⟨100, "a"⟩] ["a", "a"]) = "100|100" :=
  ⟨by decide, by decide, by decide, by decide⟩

/-- C1 (amended): the Identifier Resolver deduplicates only within a single
token's registry matches — each token contributes each identifier at most
once, in first-seen registry order — while duplicates across distinct
token occurrences are retained, so resolving `[t, t]` lists every matched
identifier exactly twice as often as resolving `[t]`. -/
theorem resolver_dedup_within_token_only (rxnorm : List RxnormRow) (t : String) :
    (tokenMatches rxnorm t).Nodup ∧
    (tokenMatches rxnorm t).Sublist
      ((rxnorm.filter (fun r => r.STR = t)).map (fun r => r.RXCUI)) ∧
    ∀ x : Nat, (resolveTokens rxnorm [t, t]).count x
      = 2 * (resolveTokens rxnorm [t]).count x := by
  refine ⟨firstSeenDedup_nodup _, firstSeenDedup_sublist _, ?_⟩
  intro x
  simp only [resolveTokens, List.flatMap_cons, List.flatMap_nil,
    List.append_nil, List.count_append]
  omega

/-- C2: when no candidate token of a row matches any registry display
name, the resolver produces exactly the sentinel `"0.0"`, and that is the
value written to the row's `RXCUI` column. -/
theorem no_match_yields_sentinel (rxnorm : List RxnormRow) (puf : List PufRow)
    (maj minc : List ClassRow) (row : DrugNameRow)
    (h : ∀ t ∈ rowTokens row, ∀ e ∈ rxnorm, e.STR ≠ t) :
    rxcuiCell rxnorm row = "0.0" ∧
    (resolveRow rxnorm puf maj minc row).RXCUI = "0.0" := by
  have hids : resolveTokens rxnorm (rowTokens row) = [] := by
    apply List.flatMap_eq_nil_iff.mpr
    intro t ht
    have hfil : rxnorm.filter (fun r => r.STR = t) = [] := by
      apply List.filter_eq_nil_iff.mpr
      intro e he
      simpa using h t ht e he
    simp [tokenMatches, hfil, firstSeenDedup, firstSeenDedupAux]
  constructor
  · simp [rxcuiCell, hids, serializeIds]
  · show rxcuiCell rxnorm row = "0.0"
    simp [rxcuiCell, hids, serializeIds]

/-- Witness for C2: a concrete row whose tokens (`"y"`, `"x"`) match
nothing in a one-entry registry gets the sentinel cell. -/
theorem no_match_yields_sentinel_witness :
    rxcuiCell [⟨1, "z"⟩] ⟨"x", "y"⟩ = "0.0" ∧
    (resolveRow [⟨1, "z"⟩] [] [] [] ⟨"x", "y"⟩).RXCUI = "0.0" :=
  no_match_yields_sentinel [⟨1, "z"⟩] [] [] [] ⟨"x", "y"⟩ (by decide)

/-- C3 counterexample: `np.unique` sorts.  With one identifier whose
profile rows carry major classes `"M2"` then `"M1"` (first-seen union
order `["M2", "M1"]`), the serialized major-class cell is the sorted
`"M1|M2"`, not the union-order `"M2|M1"`. -/
theorem class_order_sorted_cex :
    (resolveRow [⟨100, "x"⟩] [⟨100, "M2", "C2"⟩, ⟨100, "M1", "C1"⟩]
        [] [] ⟨"x", "x"⟩).drug_major_class = "M1|M2" ∧
    joinPipe (firstSeenDedup ((cellIds (rxcuiCell [⟨100, "x"⟩] ⟨"x", "x"⟩)).flatMap
      (pufMajors [⟨100, "M2", "C2"⟩, ⟨100, "M1", "C1"⟩]))) = "M2|M1" ∧
    ("M1|M2" : String) ≠ "M2|M1" :=
  ⟨by decide, by decide, by decide⟩

/-- C3 (amended): the class-code cells list their elements in ascending
lexicographic (numpy `np.unique`) order, not first-seen union order; each
description cell lists the descriptions in the order of its sorted code
list. -/
theorem class_cells_sorted (rx : List RxnormRow) (pf : List PufRow)
    (maj minc : List ClassRow) (row : DrugNameRow) :
    List.Sorted (fun a b => strLe a b = true)
      (majorCodes pf (cellIds (rxcuiCell rx row))) ∧
    List.Sorted (fun a b => strLe a b = true)
      (minorCodes pf (cellIds (rxcuiCell rx row))) ∧
    (resolveRow rx pf maj minc row).drug_major_class
      = codeCell (majorCodes pf (cellIds (rxcuiCell rx row))) ∧
    (resolveRow rx pf maj minc row).dmc_name
      = descCell maj (majorCodes pf (cellIds (rxcuiCell rx row))) ∧
    (resolveRow rx pf maj minc row).drug_class
      = codeCell (minorCodes pf (cellIds (rxcuiCell rx row))) ∧
    (resolveRow rx pf maj minc row).dc_name
      = descCell minc (minorCodes pf (cellIds (rxcuiCell rx row))) :=
  ⟨npUnique_sorted _, npUnique_sorted _,
    resolveRow_drug_major_class rx pf maj minc row,
    resolveRow_dmc_name rx pf maj minc row,
    resolveRow_drug_class rx pf maj minc row,
    resolveRow_dc_name rx pf maj minc row⟩

/-- C4 counterexample: the sentinel identifier is not skipped.  A row that
resolves to the sentinel `"0.0"` is parsed back as the number 0 and looked
up in the profile table; a profile row with identifier 0 then contributes
its classes, so the cells are not `"0"`. -/
theorem sentinel_not_skipped_cex :
    make_drug_table [⟨"x", "y"⟩] [⟨0, "M1", "C1"⟩] []
        [⟨"M1", "Analgesic"⟩] [⟨"C1", "NSAID"⟩]
      = [⟨"x", "y", "0.0", "M1", "", "C1", "", "Analgesic", "NSAID"⟩] ∧
    ("M1" : String) ≠ "0" :=
  ⟨by decide, by decide⟩

/-- C4 (amended): whenever no profile row matches any identifier parsed
from the row's `RXCUI` cell — which covers the sentinel row `"0.0"`
provided no profile row carries the numeric identifier 0 — all four class
cells are the sentinel `"0"`. -/
theorem unmatched_ids_yield_zero_cells (rx : List RxnormRow) (pf : List PufRow)
    (maj minc : List ClassRow) (row : DrugNameRow)
    (h : ∀ i ∈ cellIds (rxcuiCell rx row),
      pf.filter (fun p => p.RXNORM_RXCUI = i) = []) :
    (resolveRow rx pf maj minc row).drug_major_class = "0" ∧
    (resolveRow rx pf maj minc row).dmc_name = "0" ∧
    (resolveRow rx pf maj minc row).drug_class = "0" ∧
    (resolveRow rx pf maj minc row).dc_name = "0" := by
  have hmaj : majorCodes pf (cellIds (rxcuiCell rx row)) = [] := by
    have hc : (cellIds (rxcuiCell rx row)).flatMap (pufMajors pf) = [] := by
      apply List.flatMap_eq_nil_iff.mpr
      intro i hi
      simp [pufMajors, h i hi, firstSeenDedup, firstSeenDedupAux]
    simp [majorCodes, npUnique, hc, firstSeenDedup, firstSeenDedupAux]
  have hmin : minorCodes pf (cellIds (rxcuiCell rx row)) = [] := by
    have hc : (cellIds (rxcuiCell rx row)).flatMap (pufMinors pf) = [] := by
      apply List.flatMap_eq_nil_iff.mpr
      intro i hi
      simp [pufMinors, h i hi, firstSeenDedup, firstSeenDedupAux]
    simp [minorCodes, npUnique, hc, firstSeenDedup, firstSeenDedupAux]
  refine ⟨?_, ?_, ?_, ?_⟩
  · rw [resolveRow_drug_major_class, hmaj]; rfl
  · rw [resolveRow_dmc_name, hmaj]; rfl
  · rw [resolveRow_drug_class, hmin]; rfl
  · rw [resolveRow_dc_name, hmin]; rfl

/-- Witness for C4 (amended): a row resolving to the sentinel, against a
profile table whose only identifier is 5, gets `"0"` in all four class
cells. -/
theorem unmatched_ids_yield_zero_cells_witness :
    (resolveRow [] [⟨5, "M1", "C1"⟩] [] [] ⟨"x", "y"⟩).drug_major_class = "0" ∧
    (resolveRow [] [⟨5, "M1", "C1"⟩] [] [] ⟨"x", "y"⟩).dmc_name = "0" ∧
    (resolveRow [] [⟨5, "M1", "C1"⟩] [] [] ⟨"x", "y"⟩).drug_class = "0" ∧
    (resolveRow [] [⟨5, "M1", "C1"⟩] [] [] ⟨"x", "y"⟩).dc_name = "0" :=
  unmatched_ids_yield_zero_cells [] [⟨5, "M1", "C1"⟩] [] [] ⟨"x", "y"⟩ (by decide)

/-- C5 counterexample: a description cell can be the empty string.  When a
row's only major-class code (`"M9"`) has no row in the major-class
description table, the `dmc_name` cell is `""`, not a sentinel. -/
theorem empty_description_cell_cex :
    (resolveRow [⟨100, "x"⟩] [⟨100, "M9", "C1"⟩] [] [⟨"C1", "NSAID"⟩]
        ⟨"x", "x"⟩).dmc_name = "" ∧
    (resolveRow [⟨100, "x"⟩] [⟨100, "M9", "C1"⟩] [] [⟨"C1", "NSAID"⟩]
        ⟨"x", "x"⟩).drug_major_class = "M9" :=
  ⟨by decide, by decide⟩

/-- C5 (amended): the identifier cell and the two class-code cells are
always non-empty strings (empty sets become sentinels), provided the
profile table's class codes are non-empty; the description cells can be
empty when matched codes are absent from the description tables. -/
theorem id_and_code_cells_nonempty (rx : List RxnormRow) (pf : List PufRow)
    (maj minc : List ClassRow) (row : DrugNameRow)
    (hM : ∀ p ∈ pf, p.DRUG_MAJOR_CLASS ≠ "")
    (hC : ∀ p ∈ pf, p.DRUG_CLASS ≠ "") :
    (resolveRow rx pf maj minc row).RXCUI ≠ "" ∧
    (resolveRow rx pf maj minc row).drug_major_class ≠ "" ∧
    (resolveRow rx pf maj minc row).drug_class ≠ "" := by
  refine ⟨?_, ?_, ?_⟩
  · rw [resolveRow_RXCUI]
    exact serializeIds_ne_empty _
  · rw [resolveRow_drug_major_class]
    unfold codeCell
    by_cases hd : majorCodes pf (cellIds (rxcuiCell rx row)) = []
    · rw [if_pos hd]; decide
    · rw [if_neg hd]
      refine joinPipe_ne_empty hd ?_
      intro s hs
      rcases mem_majorCodes hs with ⟨p, hp, hps⟩
      exact hps ▸ hM p hp
  · rw [resolveRow_drug_class]
    unfold codeCell
    by_cases hd : minorCodes pf (cellIds (rxcuiCell rx row)) = []
    · rw [if_pos hd]; decide
    · rw [if_neg hd]
      refine joinPipe_ne_empty hd ?_
      intro s hs
      rcases mem_minorCodes hs with ⟨p, hp, hps⟩
      exact hps ▸ hC p hp

/-- Witness for C5 (amended): a concrete resolved row has non-empty
identifier and class-code cells. -/
theorem id_and_code_cells_nonempty_witness :
    (resolveRow [⟨100, "x"⟩] [⟨100, "M1", "C1"⟩] [] [] ⟨"x", "x"⟩).RXCUI ≠ "" ∧
    (resolveRow [⟨100, "x"⟩] [⟨100, "M1", "C1"⟩] [] []
      ⟨"x", "x"⟩).drug_major_class ≠ "" ∧
    (resolveRow [⟨100, "x"⟩] [⟨100, "M1", "C1"⟩] [] [] ⟨"x", "x"⟩).drug_class ≠ "" :=
  id_and_code_cells_nonempty [⟨100, "x"⟩] [⟨100, "M1", "C1"⟩] [] [] ⟨"x", "x"⟩
    (by decide) (by decide)

/-- C6 counterexample: the Name Normalizer maps the empty string to the
one-token sequence `[""]` (Python `"".split("/") == [""]`), not to the
empty sequence. -/
theorem normalizer_empty_input_cex :
    normalizeName "" = [""] ∧ ([""] : List String) ≠ [] :=
  ⟨by decide, by decide⟩

/-- C6 (amended): an empty or space-only raw name yields a non-empty token
sequence all of whose tokens are the empty string (one per slash segment),
rather than an empty sequence; such tokens can only match an empty
registry display name. -/
theorem normalizer_space_only_tokens (s : String)
    (h : ∀ c ∈ s.data, c = ' ') :
    normalizeName s ≠ [] ∧ ∀ t ∈ normalizeName s, t = "" := by
  have hlow : ∀ c ∈ (pyLower s).data, c = ' ' := by
    intro c hc
    rcases List.mem_map.mp hc with ⟨c0, hc0, hc1⟩
    rw [← hc1, h c0 hc0]
    decide
  have hnoslash : ('/' : Char) ∉ (pyLower s).data := by
    intro hm
    exact absurd (hlow '/' hm) (by decide)
  have hsplit : pySplit '/' (pyLower s) = [pyLower s] := by
    simp [pySplit, splitOnChar_of_not_mem hnoslash]
  constructor
  · simp [normalizeName, hsplit]
  · intro t ht
    simp only [normalizeName, hsplit, List.map_cons, List.map_nil,
      List.mem_singleton] at ht
    subst ht
    cases hsp : splitOnChar ' ' (pyLower s).data with
    | nil => exact absurd hsp (splitOnChar_ne_nil ' ' (pyLower s).data)
    | cons f fs =>
      have hf : f = [] :=
        splitOnChar_all_sep hlow f (hsp ▸ List.mem_cons_self f fs)
      simp [pySplit, hsp, hf]

/-- Witness for C6 (amended): the one-space name `" "` yields the single
empty token. -/
theorem normalizer_space_only_tokens_witness :
    normalizeName " " ≠ [] ∧ ∀ t ∈ normalizeName " ", t = "" :=
  normalizer_space_only_tokens " " (by decide)

/-- C7 counterexample: the source splits segments on the space character
only, not on all whitespace.  For the input `"a\tb/c"` the first token is
`"a\tb"`, which still contains a tab and differs from the segment's first
whitespace-delimited word `"a"`. -/
theorem normalizer_whitespace_cex :
    normalizeName "a\tb/c" = ["a\tb", "c"] ∧
    [specFirstWhitespaceWord (pyLower "a\tb"),
      specFirstWhitespaceWord (pyLower "c")] = ["a", "c"] ∧
    (["a\tb", "c"] : List String) ≠ ["a", "c"] :=
  ⟨by decide, by decide, by decide⟩

/-- C7 (amended): for an input `A ++ "/" ++ B` whose lowered segments
contain no slash, the Name Normalizer produces exactly two tokens, one per
segment, each the segment's first space-delimited (space character only)
field, lowercased. -/
theorem normalizer_two_tokens (A B : String)
    (hA : ('/' : Char) ∉ (pyLower A).data)
    (hB : ('/' : Char) ∉ (pyLower B).data) :
    normalizeName (A ++ "/" ++ B) =
      [(pySplit ' ' (pyLower A)).headD "", (pySplit ' ' (pyLower B)).headD ""] := by
  have hslash : asciiLower '/' = '/' := by decide
  have hdata : (pyLower (A ++ "/" ++ B)).data
      = (pyLower A).data ++ '/' :: (pyLower B).data := by
    simp [pyLower, String.data_append, List.map_append, hslash]
  have hfields : splitOnChar '/' (pyLower (A ++ "/" ++ B)).data
      = [(pyLower A).data, (pyLower B).data] := by
    rw [hdata, splitOnChar_append hA (pyLower B).data,
      splitOnChar_of_not_mem hB]
  simp only [normalizeName, pySplit, hfields, List.map_cons, List.map_nil]

/-- Witness for C7 (amended): `"LISINOPRIL 10MG/HCTZ"` normalizes to the
two tokens `["lisinopril", "hctz"]`. -/
theorem normalizer_two_tokens_witness :
    normalizeName ("LISINOPRIL 10MG" ++ "/" ++ "HCTZ") =
      [(pySplit ' ' (pyLower "LISINOPRIL 10MG")).headD "",
        (pySplit ' ' (pyLower "HCTZ")).headD ""] ∧
    normalizeName ("LISINOPRIL 10MG" ++ "/" ++ "HCTZ") = ["lisinopril", "hctz"] :=
  ⟨normalizer_two_tokens "LISINOPRIL 10MG" "HCTZ" (by decide) (by decide),
    by decide⟩

/-- C8 counterexample: a present-but-empty reference table does not abort
the build.  With all four reference tables present and empty, the builder
returns a normal output table (with sentinel cells) instead of a
diagnostic. -/
theorem empty_tables_not_fatal_cex :
    make_drug_table_checked (some [⟨"x", "y"⟩]) (some []) (some [])
        (some []) (some [])
      = Except.ok (make_drug_table [⟨"x", "y"⟩] [] [] [] []) ∧
    make_drug_table [⟨"x", "y"⟩] [] [] [] []
      = [⟨"x", "y", "0.0", "0", "", "0", "", "0", "0"⟩] :=
  ⟨rfl, by decide⟩

/-- C8 (amended): an absent reference table (or absent drug-names table)
aborts the build before any row is processed, with a diagnostic naming the
missing table; present-but-empty tables are processed normally and degrade
to sentinel values. -/
theorem missing_table_aborts (dn : List DrugNameRow) (pf : List PufRow)
    (rx : List RxnormRow) (maj minc : List ClassRow) :
    make_drug_table_checked none (some pf) (some rx) (some maj) (some minc)
        = Except.error "Drugnames file does not exist!" ∧
    make_drug_table_checked (some dn) none (some rx) (some maj) (some minc)
        = Except.error "Prescription drug profile data file does not exist!" ∧
    make_drug_table_checked (some dn) (some pf) none (some maj) (some minc)
        = Except.error "RxNorm data file does not exist!" ∧
    make_drug_table_checked (some dn) (some pf) (some rx) none (some minc)
        = Except.error "Drug major class file does not exist." ∧
    make_drug_table_checked (some dn) (some pf) (some rx) (some maj) none
        = Except.error "Drug class file does not exist." :=
  ⟨rfl, rfl, rfl, rfl, rfl⟩

/-- C9: the Drug Table Builder is deterministic — two runs over identical
input and reference tables produce identical output tables, row order and
cell contents included. -/
theorem builder_deterministic (dn₁ dn₂ : List DrugNameRow)
    (pf₁ pf₂ : List PufRow) (rx₁ rx₂ : List RxnormRow)
    (maj₁ maj₂ minc₁ minc₂ : List ClassRow)
    (h1 : dn₁ = dn₂) (h2 : pf₁ = pf₂) (h3 : rx₁ = rx₂)
    (h4 : maj₁ = maj₂) (h5 : minc₁ = minc₂) :
    make_drug_table dn₁ pf₁ rx₁ maj₁ minc₁
      = make_drug_table dn₂ pf₂ rx₂ maj₂ minc₂ := by
  subst h1 h2 h3 h4 h5
  rfl

/-- Witness for C9 at a concrete input. -/
theorem builder_deterministic_witness :
    make_drug_table [⟨"x", "y"⟩] [] [⟨1, "y"⟩] [] []
      = make_drug_table [⟨"x", "y"⟩] [] [⟨1, "y"⟩] [] [] :=
  builder_deterministic [⟨"x", "y"⟩] [⟨"x", "y"⟩] [] [] [⟨1, "y"⟩] [⟨1, "y"⟩]
    [] [] [] [] rfl rfl rfl rfl rfl

/-- C10: generic-name tokens are resolved before brand-name tokens, so the
row's identifier list is the generic matches followed by the brand
matches, and any identifier matched only via the generic name occupies
strictly earlier positions than any identifier matched only via the brand
name. -/
theorem generic_ids_before_brand_ids (rx : List RxnormRow) (row : DrugNameRow)
    (x y : Nat) (i j : Nat)
    (_hx : x ∈ resolveTokens rx (normalizeName row.drugname_generic))
    (hxb : x ∉ resolveTokens rx (normalizeName row.drugname_brand))
    (_hy : y ∈ resolveTokens rx (normalizeName row.drugname_brand))
    (hyg : y ∉ resolveTokens rx (normalizeName row.drugname_generic))
    (hi : (resolveTokens rx (rowTokens row))[i]? = some x)
    (hj : (resolveTokens rx (rowTokens row))[j]? = some y) :
    i < j ∧ resolveTokens rx (rowTokens row)
      = resolveTokens rx (normalizeName row.drugname_generic)
        ++ resolveTokens rx (normalizeName row.drugname_brand) := by
  have hsplit : resolveTokens rx (rowTokens row)
      = resolveTokens rx (normalizeName row.drugname_generic)
        ++ resolveTokens rx (normalizeName row.drugname_brand) := by
    simp [rowTokens, resolveTokens]
  rw [hsplit] at hi hj
  obtain ⟨hilen, hig⟩ := List.getElem?_eq_some_iff.mp hi
  obtain ⟨hjlen, hjg⟩ := List.getElem?_eq_some_iff.mp hj
  have hglen : i < (resolveTokens rx (normalizeName row.drugname_generic)).length := by
    by_contra hle
    push_neg at hle
    rw [List.getElem_append_right hle] at hig
    exact hxb (hig ▸ List.getElem_mem _)
  have hjge : (resolveTokens rx (normalizeName row.drugname_generic)).length ≤ j := by
    by_contra hlt
    push_neg at hlt
    rw [List.getElem_append_left hlt] at hjg
    exact hyg (hjg ▸ List.getElem_mem _)
  exact ⟨by omega, hsplit⟩

/-- Witness for C10: identifier 1 is matched only by the generic name
`"g"` and sits at position 0, identifier 2 only by the brand name `"b"` at
position 1. -/
theorem generic_ids_before_brand_ids_witness :
    0 < 1 ∧ resolveTokens [⟨1, "g"⟩, ⟨2, "b"⟩] (rowTokens ⟨"b", "g"⟩)
      = resolveTokens [⟨1, "g"⟩, ⟨2, "b"⟩] (normalizeName "g")
        ++ resolveTokens [⟨1, "g"⟩, ⟨2, "b"⟩] (normalizeName "b") :=
  generic_ids_before_brand_ids [⟨1, "g"⟩, ⟨2, "b"⟩] ⟨"b", "g"⟩ 1 2 0 1
    (by decide) (by decide) (by decide) (by decide) (by decide) (by decide)

end DrugSpending
